import Mathlib

/-!
Shallow embedding of the glimpse TUI core (src/app.rs, src/handlers.rs).

Strings are Lean `String`s, but all string manipulation is implemented over
the underlying character list (`String.data`) so that every definition
reduces in the kernel.  External collaborators (the git2 repository
capability and the tree-sitter symbol analyzer) are modelled as explicit
data/function fields (`GitRepo`, the `analyzer` field): the repository is a
head tree / index / working-dir triple of path-to-blob association lists,
and diff text production (`git2::Diff::print`) is an arbitrary function
`diffFn` supplied by the collaborator.  Rust panics (out-of-bounds `Vec`
indexing, `expect` on failed git calls) are modelled by returning `none`.
Rendering-only fields of `App` (dashboard info, repo root) are omitted;
no modelled operation reads or writes them.
-/

namespace Glimpse

/-- Character-wise lowercasing, modelling Rust `str::to_lowercase` (the
Unicode multi-char expansions do not occur in ASCII paths/symbols). -/
def strLower (s : String) : String := String.mk (s.data.map Char.toLower)

/-- Substring test on character lists, modelling Rust `str::contains`:
true iff `pat` occurs contiguously in `hay` (always true for empty `pat`). -/
def containsSub (hay pat : List Char) : Bool :=
  match hay with
  | [] => pat.isEmpty
  | _ :: t => pat.isPrefixOf hay || containsSub t pat

/-- `strContains s pat` models Rust `s.contains(pat)`. -/
def strContains (s pat : String) : Bool := containsSub s.data pat.data

/-- Models Rust `str::starts_with` for a literal pattern. -/
def strStartsWith (s pat : String) : Bool := pat.data.isPrefixOf s.data

/-- Models Rust `String::pop` (removing the last character). -/
def strPop (s : String) : String := String.mk s.data.dropLast

/-- Split a character list at every occurrence of `sep` (keeping empty
pieces), the list-level core of Rust `str::split`. -/
def splitOnCharAux (sep : Char) : List Char → List Char → List (List Char)
  | [], acc => [acc.reverse]
  | c :: rest, acc =>
    if c = sep then acc.reverse :: splitOnCharAux sep rest []
    else splitOnCharAux sep rest (c :: acc)

/-- Split a character list on a separator character. -/
def splitOnChar (l : List Char) (sep : Char) : List (List Char) := splitOnCharAux sep l []

/-- Models Rust `str::lines`: split on newline, drop one trailing empty
piece (a final newline is a terminator), and strip a trailing CR. -/
def rustLines (s : String) : List String :=
  let pieces := splitOnChar s.data '\n'
  let pieces := if pieces.getLast? = some [] then pieces.dropLast else pieces
  pieces.map (fun cs =>
    String.mk (if cs.getLast? = some '\r' then cs.dropLast else cs))

/-- Models Rust `str::split_whitespace`: maximal non-whitespace runs, with
empty tokens skipped. -/
def splitWsAux : List Char → List Char → List String
  | [], acc => if acc.isEmpty then [] else [String.mk acc.reverse]
  | c :: rest, acc =>
    if c.isWhitespace then
      if acc.isEmpty then splitWsAux rest []
      else String.mk acc.reverse :: splitWsAux rest []
    else splitWsAux rest (c :: acc)

/-- Rust `split_whitespace` over a string. -/
def splitWs (s : String) : List String := splitWsAux s.data []

/-- Models Rust `str::trim_start_matches("b/")`: repeatedly strip the
prefix `b/`. -/
def stripBPref (l : List Char) : List Char :=
  match l with
  | 'b' :: '/' :: rest => stripBPref rest
  | _ => l

/-- String-level wrapper for `stripBPref`. -/
def stripBPrefStr (s : String) : String := String.mk (stripBPref s.data)

/-- First-match association-list lookup, modelling both `HashMap::get` and
lookups into the modelled git trees. -/
def lookupKey {α : Type} : List (String × α) → String → Option α
  | [], _ => none
  | e :: t, k => if e.1 = k then some e.2 else lookupKey t k

/-- Association-list insert that replaces an existing binding, modelling
`HashMap::insert` (and writing one entry of the modelled git index). -/
def insertKey {α : Type} : List (String × α) → String → α → List (String × α)
  | [], k, v => [(k, v)]
  | e :: t, k, v => if e.1 = k then (k, v) :: t else e :: insertKey t k v

/-- Association-list removal of every binding of a key, modelling
`Index::remove_path`. -/
def removeKey {α : Type} : List (String × α) → String → List (String × α)
  | [], _ => []
  | e :: t, k => if e.1 = k then removeKey t k else e :: removeKey t k

/-- The three zoom levels (`ZoomLevel` in src/app.rs); the spec calls them
Overview / Structure / Line. -/
inductive ZoomLevel
  | Galaxy
  | Structure
  | Logic
deriving DecidableEq, Repr

/-- Input mode (`InputMode` in src/app.rs). -/
inductive InputMode
  | Normal
  | Editing
deriving DecidableEq, Repr

/-- Directory-level aggregate (`Module` in src/app.rs); `heat` is a `u8`
kept as `Nat` (its value is always `min (10*count) 100 ≤ 100`). -/
structure Module where
  name : String
  heat : Nat
  description : String
deriving DecidableEq, Repr

/-- One change-list row (`StructureItem` in src/app.rs). -/
structure StructureItem where
  text : String
  path : String
  is_file : Bool
  status : String
  line_no : Option Nat
  is_staged : Bool
deriving DecidableEq, Repr

/-- A symbol returned by the external analyzer collaborator
(`SemanticAnalyzer::analyze`). -/
structure SymbolInfo where
  kind : String
  name : String
  start_line : Nat
deriving DecidableEq, Repr

/-- Model of the external git2 repository handle: path-to-blob association
lists for the committed tree (absent when the repository has no commit),
the index, and the working directory, plus the collaborator-supplied diff
text producer (`Diff::print` output for a pathspec and a context width). -/
structure GitRepo where
  head : Option (List (String × Nat))
  index : List (String × Nat)
  workdir : List (String × Nat)
  diffFn : String → Nat → List String

/-- The two-variant source (`DataSource` in src/app.rs).  Only the fields
the modelled operations read are kept: the repository handle for `Local`,
the pre-split per-file diff mapping for `GitHub`. -/
inductive DataSource
  | Local (repo : GitRepo)
  | GitHub (file_diffs : List (String × List String))

/-- `true` exactly on a `Local` source, modelling
`matches!(self.source, Some(DataSource::Local { .. }))`. -/
def sourceIsLocal : Option DataSource → Bool
  | some (DataSource.Local _) => true
  | _ => false

/-- The application state (`App` in src/app.rs); the `analyzer` field is
the external symbol-extraction collaborator. -/
structure App where
  zoom_level : ZoomLevel
  modules : List Module
  structures : List StructureItem
  logic_view_content : List String
  filtered_structure_indices : List Nat
  selected_index : Nat
  analyzer : String → Nat → List SymbolInfo
  source : Option DataSource
  error_msg : Option String
  context_lines : Nat
  input_mode : InputMode
  search_query : String

/-- `App::load_diff` (src/app.rs:404-474).  `none` models the panic on the
(stale-state) out-of-bounds `self.structures[real_index]` access; every
other exit of the Rust function is a normal return. -/
def load_diff (a : App) : Option App :=
  if a.structures = [] ∨ a.source.isNone then some a
  else
    let a1 := { a with logic_view_content := [] }
    let a2 :=
      if a1.filtered_structure_indices.length ≤ a1.selected_index then
        { a1 with selected_index := 0 }
      else a1
    if a2.filtered_structure_indices = [] then some a2
    else
      match a2.filtered_structure_indices[a2.selected_index]? with
      | none => none
      | some real_index =>
        match a2.structures[real_index]? with
        | none => none
        | some item =>
          if item.path = "" then some a2
          else
            let base : List String :=
              match a2.source with
              | some (DataSource.Local r) => r.diffFn item.path a2.context_lines
              | some (DataSource.GitHub fd) =>
                match lookupKey fd item.path with
                | some lines => lines
                | none => ["No diff available for this file."]
              | none => []
            let content :=
              if item.is_file = false then
                match item.line_no with
                | some line =>
                  base ++ ["--- Focused on Line " ++ toString line ++ " ---"]
                | none => base
              else base
            some { a2 with logic_view_content := content }

/-- The filtered-index recomputation of `App::update_search`
(src/app.rs:162-173): the identity sequence for an empty query, otherwise
the indices of the enumerated entries whose lowercased display text
contains the lowercased query. -/
def computeFiltered (structures : List StructureItem) (query : String) :
    List Nat :=
  if query = "" then List.range structures.length
  else
    (structures.enum.filter
      (fun p => strContains (strLower p.2.text) (strLower query))).map Prod.fst

/-- `App::update_search` (src/app.rs:161-182): recompute the filtered
index list, normalize the selection, reload the diff. -/
def update_search (a : App) : Option App :=
  let fi := computeFiltered a.structures a.search_query
  let sel :=
    if fi = [] ∨ fi.length ≤ a.selected_index then 0 else a.selected_index
  load_diff { a with filtered_structure_indices := fi, selected_index := sel }

/-- `App::enter_search` (src/app.rs:184-188). -/
def enter_search (a : App) : Option App :=
  update_search { a with input_mode := InputMode.Editing, search_query := "" }

/-- `App::exit_search` (src/app.rs:190-195): commit the search, keeping
the query. -/
def exit_search (a : App) : App := { a with input_mode := InputMode.Normal }

/-- `App::cancel_search` (src/app.rs:197-201). -/
def cancel_search (a : App) : Option App :=
  update_search { a with input_mode := InputMode.Normal, search_query := "" }

/-- `u32::MAX`, the saturation bound of `context_lines`. -/
def u32Max : Nat := 2 ^ 32 - 1

/-- `App::increase_context` (src/app.rs:476-483). -/
def increase_context (a : App) : Option App :=
  if a.zoom_level = ZoomLevel.Logic ∧ sourceIsLocal a.source then
    load_diff { a with context_lines := min (a.context_lines + 3) u32Max }
  else some a

/-- `App::decrease_context` (src/app.rs:485-492). -/
def decrease_context (a : App) : Option App :=
  if a.zoom_level = ZoomLevel.Logic ∧ sourceIsLocal a.source then
    load_diff { a with context_lines := max (a.context_lines - 3) 1 }
  else some a

/-- `App::next` (src/app.rs:534-547). -/
def next (a : App) : Option App :=
  let mx :=
    match a.zoom_level with
    | ZoomLevel.Galaxy => a.modules.length
    | ZoomLevel.Structure => a.filtered_structure_indices.length
    | ZoomLevel.Logic => max a.logic_view_content.length 1
  if 0 < mx ∧ a.selected_index < mx - 1 then
    let a' := { a with selected_index := a.selected_index + 1 }
    if a.zoom_level = ZoomLevel.Structure then load_diff a' else some a'
  else some a

/-- `App::previous` (src/app.rs:549-556). -/
def previous (a : App) : Option App :=
  if 0 < a.selected_index then
    let a' := { a with selected_index := a.selected_index - 1 }
    if a.zoom_level = ZoomLevel.Structure then load_diff a' else some a'
  else some a

/-- `App::zoom_in` (src/app.rs:558-574). -/
def zoom_in (a : App) : Option App :=
  match a.zoom_level with
  | ZoomLevel.Galaxy =>
    load_diff { a with zoom_level := ZoomLevel.Structure, selected_index := 0 }
  | ZoomLevel.Structure =>
    if a.filtered_structure_indices = [] then some a
    else some { a with zoom_level := ZoomLevel.Logic, selected_index := 0 }
  | ZoomLevel.Logic => some a

/-- `App::zoom_out` (src/app.rs:576-588); it cannot fail. -/
def zoom_out (a : App) : App :=
  match a.zoom_level with
  | ZoomLevel.Galaxy => a
  | ZoomLevel.Structure => { a with zoom_level := ZoomLevel.Galaxy, selected_index := 0 }
  | ZoomLevel.Logic => { a with zoom_level := ZoomLevel.Structure, selected_index := 0 }

/-- Loop body of `App::split_diff` (src/app.rs:303-325): state is the
accumulated mapping, the current section key, and the current section's
lines; the final clause is the after-scan flush. -/
def split_diff_go :
    List String → List (String × List String) → String → List String →
      List (String × List String)
  | [], m, cf, cl => if cf = "" then m else insertKey m cf cl
  | line :: rest, m, cf, cl =>
    if strStartsWith line "diff --git" then
      let flushed :=
        if cf = "" then (m, cl) else (insertKey m cf cl, ([] : List String))
      let cf' :=
        match (splitWs line).getLast? with
        | some b_path => stripBPrefStr b_path
        | none => cf
      split_diff_go rest flushed.1 cf' (flushed.2 ++ [line])
    else split_diff_go rest m cf (cl ++ [line])

/-- `App::split_diff` (src/app.rs:303-325); the `HashMap` is modelled as an
association list (its iteration order is irrelevant: results are read via
`lookupKey`). -/
def split_diff (raw : String) : List (String × List String) :=
  split_diff_go (rustLines raw) [] "" []

/-- Keep the first occurrence of every path, modelling the per-path status
entries of `Repository::statuses`. -/
def dedupFirst : List String → List String
  | [] => []
  | x :: t => x :: (dedupFirst t).filter (fun y => decide (y ≠ x))

/-- Blob recorded for a path in the committed tree, if any. -/
def headLookup (r : GitRepo) (p : String) : Option Nat :=
  match r.head with
  | none => none
  | some t => lookupKey t p

/-- Staged classification of a path: its index entry differs from its
committed entry (git2 `INDEX_NEW` / `INDEX_MODIFIED` / `INDEX_DELETED`). -/
def entryIsStaged (r : GitRepo) (p : String) : Bool :=
  decide (lookupKey r.index p ≠ headLookup r p)

/-- A path appears in the status list iff it is staged or its working-tree
entry differs from its index entry (untracked and modified files included,
unmodified files excluded, matching `Repository::statuses` with
`include_untracked`). -/
def entryIncluded (r : GitRepo) (p : String) : Bool :=
  entryIsStaged r p || decide (lookupKey r.workdir p ≠ lookupKey r.index p)

/-- Every path known to the repository, in first-occurrence order (the
status-list order is chosen by the external collaborator). -/
def repoPaths (r : GitRepo) : List String :=
  dedupFirst
    ((r.head.getD []).map Prod.fst ++ r.index.map Prod.fst ++
      r.workdir.map Prod.fst)

/-- Join path components with separators. -/
def intercalChar (sep : Char) : List (List Char) → List Char
  | [] => []
  | [x] => x
  | x :: y :: t => x ++ sep :: intercalChar sep (y :: t)

/-- Models `Path::parent` followed by `to_string_lossy`: drop the last
`/`-separated component (`none` only for the empty path). -/
def parentDir (p : String) : Option String :=
  if p = "" then none
  else some (String.mk (intercalChar '/' ((splitOnChar p.data '/').dropLast)))

/-- Increment a directory bucket (`*dir_counts.entry(..).or_insert(0) += 1`). -/
def bumpCount : List (String × Nat) → String → List (String × Nat)
  | [], k => [(k, 1)]
  | e :: t, k => if e.1 = k then (e.1, e.2 + 1) :: t else e :: bumpCount t k

/-- Directory buckets of a status list, with the `"root"` sentinel for an
empty parent (src/app.rs:359-368). -/
def dirCounts (ps : List String) : List (String × Nat) :=
  ps.foldl
    (fun m p =>
      match parentDir p with
      | some d => bumpCount m (if d = "" then "root" else d)
      | none => m)
    []

/-- One `Module` from a directory bucket (src/app.rs:388-398):
`heat = min (10*count) 100`. -/
def mkModule (e : String × Nat) : Module :=
  { name := e.1, heat := min (e.2 * 10) 100,
    description := toString e.2 ++ " changed files" }

/-- Insert a module before the first strictly cooler one (descending-heat
insertion; only descending order and the length are observable). -/
def insertByHeat (m : Module) : List Module → List Module
  | [] => [m]
  | x :: t => if x.heat < m.heat then m :: x :: t else x :: insertByHeat m t

/-- Sort modules by descending heat (`modules.sort_by(|a, b| b.heat.cmp(&a.heat))`). -/
def sortByHeat (l : List Module) : List Module := l.foldr insertByHeat []

/-- The rows scanned for one status entry: the file row (with its staged
flag) followed by one symbol row per analyzer result when the file exists
in the working tree (src/app.rs:342-386). -/
def scanEntry (r : GitRepo) (anlz : String → Nat → List SymbolInfo)
    (p : String) : List StructureItem :=
  let fileItem : StructureItem :=
    { text := p, path := p, is_file := true, status := "Status",
      line_no := none, is_staged := entryIsStaged r p }
  let symItems : List StructureItem :=
    match lookupKey r.workdir p with
    | some blob =>
      (anlz p blob).map (fun sym =>
        { text := "  " ++ sym.kind ++ " " ++ sym.name, path := p,
          is_file := false, status := sym.kind,
          line_no := some sym.start_line, is_staged := false })
    | none => []
  fileItem :: symItems

/-- `App::scan_local_repo` (src/app.rs:327-402). -/
def scan_local_repo (r : GitRepo) (anlz : String → Nat → List SymbolInfo) :
    List Module × List StructureItem :=
  let ps := (repoPaths r).filter (entryIncluded r)
  (sortByHeat ((dirCounts ps).map mkModule), (ps.map (scanEntry r anlz)).flatten)

/-- Rebuild after a successful staging mutation (src/app.rs:527-530):
replace the repository handle, rescan modules and structures, and re-run
the search with the unchanged current query. -/
def stageRebuild (a : App) (r' : GitRepo) : Option App :=
  let scanned := scan_local_repo r' a.analyzer
  update_search
    { a with source := some (DataSource.Local r'), modules := scanned.1,
             structures := scanned.2 }

/-- `App::toggle_stage` (src/app.rs:494-532).  `none` models a panic: the
unchecked `filtered_structure_indices[selected_index]` /
`structures[real_index]` indexing, or `Index::add_path` failing because
the path does not exist in the working tree. -/
def toggle_stage (a : App) : Option App :=
  match a.source with
  | some (DataSource.Local r) =>
    if a.filtered_structure_indices = [] then some a
    else
      match a.filtered_structure_indices[a.selected_index]? with
      | none => none
      | some real_index =>
        match a.structures[real_index]? with
        | none => none
        | some item =>
          if item.is_file = false then some a
          else
            let newIndexOpt : Option (List (String × Nat)) :=
              if item.is_staged then
                match r.head with
                | some t =>
                  some
                    (match lookupKey t item.path with
                     | some v => insertKey r.index item.path v
                     | none => removeKey r.index item.path)
                | none => some (removeKey r.index item.path)
              else
                match lookupKey r.workdir item.path with
                | some v => some (insertKey r.index item.path v)
                | none => none
            match newIndexOpt with
            | none => none
            | some newIdx => stageRebuild a { r with index := newIdx }
  | _ => some a

/-- The key events the handler distinguishes (src/handlers.rs). -/
inductive Key
  | char (c : Char)
  | enter
  | esc
  | backspace
  | down
  | up
  | left
  | other
deriving DecidableEq, Repr

/-- `handle_event` (src/handlers.rs:4-66): the `Bool` is the
keep-running flag; `none` models a panic inside an action. -/
def handle_event (a : App) (k : Key) : Bool × Option App :=
  if a.input_mode = InputMode.Editing then
    (true,
      match k with
      | Key.enter => some (exit_search a)
      | Key.esc => cancel_search a
      | Key.backspace => update_search { a with search_query := strPop a.search_query }
      | Key.char c => update_search { a with search_query := a.search_query.push c }
      | _ => some a)
  else
    match k with
    | Key.esc => (false, some a)
    | Key.down => (true, next a)
    | Key.up => (true, previous a)
    | Key.enter => (true, zoom_in a)
    | Key.backspace => (true, some (zoom_out a))
    | Key.left => (true, some (zoom_out a))
    | Key.char c =>
      if c = 'q' then (false, some a)
      else if c = 'j' then (true, next a)
      else if c = 'k' then (true, previous a)
      else if c = ' ' then (true, toggle_stage a)
      else if c = '+' ∨ c = '=' then (true, increase_context a)
      else if c = '-' ∨ c = '_' then (true, decrease_context a)
      else if c = '/' then
        (true, if a.zoom_level = ZoomLevel.Structure then enter_search a else some a)
      else (true, some a)
    | Key.other => (true, some a)

/-- Feed a sequence of key events through the handler (the event loop of
src/main.rs).  The quit keys leave the state unchanged, so following them
further does not add reachable states. -/
def run : App → List Key → Option App
  | a, [] => some a
  | a, k :: rest =>
    match (handle_event a k).2 with
    | none => none
    | some a' => run a' rest

/-- The `App::new` + `load_local` initialization for a local repository
(src/app.rs:115-158, 205-234): scan, then for a non-empty structure list
run `update_search` followed by `load_diff`. -/
def initLocalApp (r : GitRepo) (anlz : String → Nat → List SymbolInfo) :
    Option App :=
  let scanned := scan_local_repo r anlz
  let base : App :=
    { zoom_level := ZoomLevel.Galaxy, modules := scanned.1,
      structures := scanned.2, logic_view_content := [],
      filtered_structure_indices := [], selected_index := 0, analyzer := anlz,
      source := some (DataSource.Local r), error_msg := none,
      context_lines := 3, input_mode := InputMode.Normal, search_query := "" }
  if scanned.2 = [] then some base
  else
    match update_search base with
    | none => none
    | some a1 => load_diff a1

/-- Modelled from the spec: "`selected_index` is always a valid index into
whichever list is currently authoritative for the active zoom level, or 0
when that list is empty" — the invariant claimed for every reachable
state, as a decidable check. -/
def specSelectionInvariant (a : App) : Bool :=
  let len :=
    match a.zoom_level with
    | ZoomLevel.Galaxy => a.modules.length
    | ZoomLevel.Structure => a.filtered_structure_indices.length
    | ZoomLevel.Logic => a.logic_view_content.length
  decide (a.selected_index < len) ||
    (decide (len = 0) && decide (a.selected_index = 0))

/-- Structure-level selection validity: the part of the selection
invariant that the code does maintain. -/
def structSelOk (a : App) : Prop :=
  a.selected_index < a.filtered_structure_indices.length ∨
    (a.filtered_structure_indices = [] ∧ a.selected_index = 0)

/-- An analyzer collaborator that finds no symbols. -/
def noSyms : String → Nat → List SymbolInfo := fun _ _ => []

/-- A diff collaborator producing no lines. -/
def noDiff : String → Nat → List String := fun _ _ => []

/-- Concrete repository: root files `a`, `c` with staged and unstaged
edits, and `b/x` whose only change is staged (index differs from the
committed blob while the working tree matches it). -/
def c5Repo : GitRepo :=
  { head := some [("a", 0), ("b/x", 2), ("c", 0)],
    index := [("a", 1), ("b/x", 3), ("c", 1)],
    workdir := [("a", 2), ("b/x", 2), ("c", 2)],
    diffFn := noDiff }

/-- Key trace: move down once at Overview level, then toggle staging. -/
def c5Keys : List Key := [Key.char 'j', Key.char ' ']

/-- The state reached by `c5Keys` from the freshly loaded `c5Repo`. -/
def c5Final : Option App :=
  match initLocalApp c5Repo noSyms with
  | none => none
  | some a => run a c5Keys

/-- A file row fixture (the spec's search scenario). -/
def wItemFoo : StructureItem :=
  { text := "foo.rs", path := "foo.rs", is_file := true,
    status := "WT_MODIFIED", line_no := none, is_staged := false }

/-- A symbol row fixture nested under `foo.rs`. -/
def wItemBar : StructureItem :=
  { text := "  fn bar", path := "foo.rs", is_file := false,
    status := "function", line_no := some 10, is_staged := false }

/-- A Structure-level state editing the query `"BAR"` over the two-row
fixture list. -/
def searchApp : App :=
  { zoom_level := ZoomLevel.Structure, modules := [],
    structures := [wItemFoo, wItemBar], logic_view_content := [],
    filtered_structure_indices := [0, 1], selected_index := 1,
    analyzer := noSyms, source := none, error_msg := none,
    context_lines := 3, input_mode := InputMode.Editing,
    search_query := "BAR" }

/-- The state `update_search` produces from `searchApp`: only the symbol
row matches, and the selection is re-normalized to 0. -/
def searchAppRes : App :=
  { searchApp with filtered_structure_indices := [1], selected_index := 0 }

/-- A Line-level state against a local source with the default context
width 3. -/
def ctxApp : App :=
  { zoom_level := ZoomLevel.Logic, modules := [], structures := [],
    logic_view_content := [], filtered_structure_indices := [],
    selected_index := 0, analyzer := noSyms,
    source := some (DataSource.Local c5Repo), error_msg := none,
    context_lines := 3, input_mode := InputMode.Normal, search_query := "" }

/-- The same Line-level state with the context width already at the
floor 1. -/
def ctxApp1 : App := { ctxApp with context_lines := 1 }

/-- A remote file row whose path is absent from the pre-split mapping. -/
def ghItem : StructureItem :=
  { text := "g", path := "g", is_file := true, status := "+1 -0",
    line_no := none, is_staged := false }

/-- A state over a GitHub source whose pre-split mapping only knows the
path `f`, while the selected row has path `g`. -/
def ghApp : App :=
  { zoom_level := ZoomLevel.Logic, modules := [], structures := [ghItem],
    logic_view_content := [], filtered_structure_indices := [0],
    selected_index := 0, analyzer := noSyms,
    source := some (DataSource.GitHub [("f", ["+x"])]), error_msg := none,
    context_lines := 3, input_mode := InputMode.Normal, search_query := "" }

/-- The state `load_diff` produces from `ghApp`: the placeholder line. -/
def ghAppRes : App :=
  { ghApp with logic_view_content := ["No diff available for this file."] }

/-- A repository with no commit (unborn HEAD) whose index holds the one
file `f`, matching the working tree (a staged-only new file). -/
def c9Repo : GitRepo :=
  { head := none, index := [("f", 1)], workdir := [("f", 1)],
    diffFn := noDiff }

/-- The staged file row of `c9Repo`. -/
def c9Item : StructureItem :=
  { text := "f", path := "f", is_file := true, status := "Status",
    line_no := none, is_staged := true }

/-- A Structure-level state over `c9Repo` with the staged file selected. -/
def c9App : App :=
  { zoom_level := ZoomLevel.Structure, modules := [mkModule ("root", 1)],
    structures := [c9Item], logic_view_content := [],
    filtered_structure_indices := [0], selected_index := 0,
    analyzer := noSyms, source := some (DataSource.Local c9Repo),
    error_msg := none, context_lines := 3, input_mode := InputMode.Normal,
    search_query := "" }

/-- A file section of a raw unified diff, for stating the splitting
theorem: `hdr` is the header line, `tok` its trailing
whitespace-separated token, `key` that token with the destination-side
prefix stripped, and `body` the section's remaining lines. -/
structure DiffSection where
  key : String
  tok : String
  hdr : String
  body : List String
deriving DecidableEq, Repr

/-- The verbatim lines of a section: its header followed by its body. -/
def sectionLines (s : DiffSection) : List String := s.hdr :: s.body

/-- Section well-formedness: the header starts with the marker, its last
whitespace token is `tok`, stripping `b/` from `tok` gives the non-empty
`key`, and no body line starts with the marker. -/
def sectionWF (s : DiffSection) : Prop :=
  strStartsWith s.hdr "diff --git" = true ∧
  (splitWs s.hdr).getLast? = some s.tok ∧
  stripBPrefStr s.tok = s.key ∧
  s.key ≠ "" ∧
  ∀ l ∈ s.body, strStartsWith l "diff --git" = false

instance (s : DiffSection) : Decidable (sectionWF s) := by
  unfold sectionWF
  infer_instance

/-- The spec's two-section raw diff scenario. -/
def c3Raw : String :=
  "diff --git a/x b/x\n+hi\ndiff --git a/y b/y\n-bye\n"

/-- First section of `c3Raw`. -/
def c3SecX : DiffSection :=
  { key := "x", tok := "b/x", hdr := "diff --git a/x b/x", body := ["+hi"] }

/-- Second section of `c3Raw`. -/
def c3SecY : DiffSection :=
  { key := "y", tok := "b/y", hdr := "diff --git a/y b/y", body := ["-bye"] }

/-- Key trace to `c4Run`: zoom to Structure, search for `b`, commit the
query, zoom back out to Overview, move down once, press the staging key. -/
def c4Keys : List Key :=
  [Key.enter, Key.char '/', Key.char 'b', Key.enter, Key.left,
   Key.char 'j', Key.char ' ']

/-- Running `c4Keys` from the freshly loaded `c5Repo` session. -/
def c4Run : Option App :=
  match initLocalApp c5Repo noSyms with
  | none => none
  | some a => run a c4Keys

/-- An Overview-level state with a committed one-element filter and
selection 1 (valid for the two-module Overview list, out of bounds for
the filtered list) over a local source. -/
def c4App : App :=
  { zoom_level := ZoomLevel.Galaxy, modules := [mkModule ("root", 1)],
    structures := [wItemFoo], logic_view_content := [],
    filtered_structure_indices := [0], selected_index := 1,
    analyzer := noSyms, source := some (DataSource.Local c9Repo),
    error_msg := none, context_lines := 3, input_mode := InputMode.Normal,
    search_query := "foo" }

/-- The invariant the code actually maintains: whenever the zoom level is
Structure, the selection is valid for the filtered list (or 0 when that
list is empty). -/
def selInv (a : App) : Prop :=
  a.zoom_level = ZoomLevel.Structure → structSelOk a

/-- The state reached from `c4App` by one zoom-in key. -/
def c5W : App :=
  { c4App with
    zoom_level := ZoomLevel.Structure
    selected_index := 0
    logic_view_content := [] }

/-! ## Helper lemmas -/

/-- `load_diff` only rewrites the diff buffer and (possibly) resets the
selection: every other field survives, and the selection is reset only
when it was out of the filtered list's bounds. -/
theorem load_diff_pres {a a' : App} (h : load_diff a = some a') :
    a'.zoom_level = a.zoom_level ∧
    a'.modules = a.modules ∧
    a'.structures = a.structures ∧
    a'.filtered_structure_indices = a.filtered_structure_indices ∧
    a'.source = a.source ∧
    a'.input_mode = a.input_mode ∧
    a'.search_query = a.search_query ∧
    a'.context_lines = a.context_lines ∧
    a'.analyzer = a.analyzer ∧
    (a'.selected_index = a.selected_index ∨
      (a.filtered_structure_indices.length ≤ a.selected_index ∧
        a'.selected_index = 0)) := by
  unfold load_diff at h
  split at h
  · injection h with h2
    subst h2
    exact ⟨rfl, rfl, rfl, rfl, rfl, rfl, rfl, rfl, rfl, Or.inl rfl⟩
  · dsimp only at h
    split at h <;> rename_i hsel <;> repeat' split at h
    all_goals
      first
        | exact Option.noConfusion h
        | (injection h with h2; subst h2;
           first
             | exact ⟨rfl, rfl, rfl, rfl, rfl, rfl, rfl, rfl, rfl, Or.inl rfl⟩
             | exact ⟨rfl, rfl, rfl, rfl, rfl, rfl, rfl, rfl, rfl,
                 Or.inr ⟨hsel, rfl⟩⟩)

/-- A zero selection always satisfies Structure-level selection validity. -/
theorem structSelOk_of_zero {a : App} (h : a.selected_index = 0) :
    structSelOk a := by
  cases hfi : a.filtered_structure_indices with
  | nil => exact Or.inr ⟨hfi, h⟩
  | cons x t => exact Or.inl (by rw [h, hfi]; exact Nat.succ_pos _)

/-- `load_diff` preserves Structure-level selection validity. -/
theorem load_diff_structSelOk {a a' : App} (h : load_diff a = some a')
    (hok : structSelOk a) : structSelOk a' := by
  obtain ⟨-, -, -, hfi, -, -, -, -, -, hsel⟩ := load_diff_pres h
  rcases hsel with hsel | ⟨-, hsel⟩
  · unfold structSelOk
    rw [hfi, hsel]
    exact hok
  · exact structSelOk_of_zero hsel

/-- When the selection was already valid for the filtered list,
`load_diff` does not move it. -/
theorem load_diff_sel {a a' : App} (h : load_diff a = some a')
    (hok : structSelOk a) : a'.selected_index = a.selected_index := by
  obtain ⟨-, -, -, -, -, -, -, -, -, hsel⟩ := load_diff_pres h
  rcases hsel with hsel | ⟨hle, h0⟩
  · exact hsel
  · rcases hok with hlt | ⟨-, hz⟩
    · omega
    · rw [h0, hz]

/-- The normalized selection produced inside `update_search` is always
valid for the recomputed filtered list. -/
theorem structSelOk_norm (fi : List Nat) (sel : Nat) (a : App) :
    structSelOk
      { a with filtered_structure_indices := fi,
               selected_index :=
                 if fi = [] ∨ fi.length ≤ sel then 0 else sel } := by
  by_cases hc : fi = [] ∨ fi.length ≤ sel
  · rw [if_pos hc]
    exact structSelOk_of_zero rfl
  · rw [if_neg hc]
    push_neg at hc
    exact Or.inl hc.2

/-- Field accounting for `update_search`: the recomputed filter, the
normalized selection, and preservation of everything else. -/
theorem update_search_fields {a a' : App} (h : update_search a = some a') :
    a'.filtered_structure_indices =
      computeFiltered a.structures a.search_query ∧
    a'.selected_index =
      (if computeFiltered a.structures a.search_query = [] ∨
          (computeFiltered a.structures a.search_query).length ≤
            a.selected_index
       then 0 else a.selected_index) ∧
    a'.zoom_level = a.zoom_level ∧
    a'.modules = a.modules ∧
    a'.structures = a.structures ∧
    a'.source = a.source ∧
    a'.input_mode = a.input_mode ∧
    a'.search_query = a.search_query ∧
    a'.context_lines = a.context_lines ∧
    a'.analyzer = a.analyzer := by
  unfold update_search at h
  dsimp only at h
  obtain ⟨hz, hm, hs, hfi, hsrc, him, hq, hc, han, -⟩ := load_diff_pres h
  have hsel := load_diff_sel h (structSelOk_norm _ _ _)
  exact ⟨hfi, hsel, hz, hm, hs, hsrc, him, hq, hc, han⟩

/-- After `update_search` the selection is valid for the (new) filtered
list, and the zoom level is untouched. -/
theorem update_search_structSelOk {a a' : App}
    (h : update_search a = some a') :
    structSelOk a' ∧ a'.zoom_level = a.zoom_level := by
  unfold update_search at h
  dsimp only at h
  exact ⟨load_diff_structSelOk h (structSelOk_norm _ _ _), (load_diff_pres h).1⟩

/-- The empty pattern is contained in every string. -/
theorem containsSub_nil (hay : List Char) : containsSub hay [] = true := by
  cases hay with
  | nil => rfl
  | cons c t => simp [containsSub, List.isPrefixOf]

/-- Empty query: the filter is the identity sequence. -/
theorem computeFiltered_empty (s : List StructureItem) :
    computeFiltered s "" = List.range s.length := by
  simp [computeFiltered]

/-- The recomputed filter is a subsequence of the identity sequence. -/
theorem computeFiltered_sublist (s : List StructureItem) (q : String) :
    List.Sublist (computeFiltered s q) (List.range s.length) := by
  unfold computeFiltered
  split
  · exact List.Sublist.refl _
  · have h2 := (List.filter_sublist
      (p := fun p => strContains (strLower p.2.text) (strLower q))
      s.enum).map Prod.fst
    rwa [List.enum_map_fst] at h2

/-- Membership characterization of the recomputed filter: exactly the
indices whose entry's display text contains the query,
case-insensitively.  (For the empty query this degenerates to "every
index of the list", matching the identity sequence.) -/
theorem computeFiltered_mem (s : List StructureItem) (q : String) (i : Nat) :
    i ∈ computeFiltered s q ↔
      ∃ item, s[i]? = some item ∧
        strContains (strLower item.text) (strLower q) = true := by
  unfold computeFiltered
  split
  · rename_i hq
    subst hq
    rw [List.mem_range]
    constructor
    · intro hi
      exact ⟨s[i], List.getElem?_eq_getElem hi, containsSub_nil _⟩
    · rintro ⟨item, hget, -⟩
      exact (List.getElem?_eq_some.mp hget).1
  · constructor
    · intro hm
      rcases List.mem_map.mp hm with ⟨pr, hpr, hfst⟩
      rcases List.mem_filter.mp hpr with ⟨hmem, hp⟩
      have hget : s[pr.1]? = some pr.2 :=
        List.mk_mem_enum_iff_getElem?.mp hmem
      subst hfst
      exact ⟨pr.2, hget, hp⟩
    · rintro ⟨item, hget, hcontains⟩
      exact List.mem_map.mpr
        ⟨(i, item),
         List.mem_filter.mpr
           ⟨List.mk_mem_enum_iff_getElem?.mpr hget, hcontains⟩, rfl⟩

/-- Exact result of `load_diff` over a GitHub source when the selection
is in bounds, the selected row is a file, and its path is non-empty: the
buffer becomes the pre-split lines of the path, or the literal
placeholder line when the path is absent from the mapping. -/
theorem load_diff_github {a : App} {fd : List (String × List String)}
    {ri : Nat} {item : StructureItem}
    (hs : a.source = some (DataSource.GitHub fd))
    (hsel : a.selected_index < a.filtered_structure_indices.length)
    (hri : a.filtered_structure_indices[a.selected_index]? = some ri)
    (hitem : a.structures[ri]? = some item)
    (hfile : item.is_file = true)
    (hpath : item.path ≠ "") :
    load_diff a =
      some { a with logic_view_content :=
        match lookupKey fd item.path with
        | some lines => lines
        | none => ["No diff available for this file."] } := by
  have hstr : ¬(a.structures = [] ∨ a.source.isNone = true) := by
    rintro (h1 | h2)
    · rw [h1] at hitem
      simp at hitem
    · rw [hs] at h2
      simp at h2
  have hfine : a.filtered_structure_indices ≠ [] :=
    List.ne_nil_of_length_pos (Nat.lt_of_le_of_lt (Nat.zero_le _) hsel)
  unfold load_diff
  rw [if_neg hstr]
  dsimp only
  rw [if_neg (Nat.not_le.mpr hsel), if_neg hfine, hri]
  dsimp only
  rw [hitem]
  dsimp only
  rw [if_neg hpath, hs, hfile]
  dsimp only
  rfl

/-- Lookup distributes over association-list append. -/
theorem lookupKey_append {α : Type} (l₁ l₂ : List (String × α)) (k : String) :
    lookupKey (l₁ ++ l₂) k =
      match lookupKey l₁ k with
      | some v => some v
      | none => lookupKey l₂ k := by
  induction l₁ with
  | nil => rfl
  | cons e t ih =>
    by_cases hc : e.1 = k
    · simp [lookupKey, hc]
    · simp [lookupKey, hc, ih]

/-- Inserting an absent key appends the binding. -/
theorem insertKey_of_lookup_none {α : Type} {m : List (String × α)}
    {k : String} (h : lookupKey m k = none) (v : α) :
    insertKey m k v = m ++ [(k, v)] := by
  induction m with
  | nil => rfl
  | cons e t ih =>
    by_cases hc : e.1 = k
    · rw [lookupKey, if_pos hc] at h
      exact absurd h (by simp)
    · rw [lookupKey, if_neg hc] at h
      simp [insertKey, hc, ih h]

/-- Scanning a run of non-header lines only extends the current section's
accumulated lines. -/
theorem split_diff_go_body :
    ∀ (ls : List String),
      (∀ l ∈ ls, strStartsWith l "diff --git" = false) →
      ∀ (rest : List String) (m : List (String × List String)) (cf : String)
        (cl : List String),
        split_diff_go (ls ++ rest) m cf cl =
          split_diff_go rest m cf (cl ++ ls) := by
  intro ls
  induction ls with
  | nil =>
    intro _ rest m cf cl
    simp
  | cons l tl ih =>
    intro h rest m cf cl
    have hl : strStartsWith l "diff --git" = false := h l (by simp)
    have htl : ∀ x ∈ tl, strStartsWith x "diff --git" = false :=
      fun x hx => h x (List.mem_cons_of_mem _ hx)
    rw [List.cons_append]
    rw [show split_diff_go (l :: (tl ++ rest)) m cf cl
          = split_diff_go (tl ++ rest) m cf (cl ++ [l]) from by
        simp [split_diff_go, hl]]
    rw [ih htl rest m cf (cl ++ [l])]
    simp

/-- Scanning a header line with a non-empty current key flushes the
current section and starts the new one. -/
theorem split_diff_go_header (line : String) (rest : List String)
    (m : List (String × List String)) (cf : String) (cl : List String)
    (tok : String)
    (hh : strStartsWith line "diff --git" = true)
    (htok : (splitWs line).getLast? = some tok)
    (hcf : cf ≠ "") :
    split_diff_go (line :: rest) m cf cl =
      split_diff_go rest (insertKey m cf cl) (stripBPrefStr tok) [line] := by
  simp [split_diff_go, hh, htok, hcf]

/-- Scanning a header line with the initial empty key starts the first
section without flushing (the accumulated lines are kept). -/
theorem split_diff_go_header_first (line : String) (rest : List String)
    (m : List (String × List String)) (cl : List String) (tok : String)
    (hh : strStartsWith line "diff --git" = true)
    (htok : (splitWs line).getLast? = some tok) :
    split_diff_go (line :: rest) m "" cl =
      split_diff_go rest m (stripBPrefStr tok) (cl ++ [line]) := by
  simp [split_diff_go, hh, htok]

/-- Main splitting invariant: scanning the concatenated lines of
well-formed sections with fresh, distinct keys flushes the in-progress
section and then appends one binding per section, in order. -/
theorem split_diff_go_sections :
    ∀ (secs : List DiffSection),
      (∀ s ∈ secs, sectionWF s) →
      ∀ (m : List (String × List String)) (cf : String) (cl : List String),
        cf ≠ "" →
        (∀ k ∈ cf :: secs.map DiffSection.key, lookupKey m k = none) →
        (cf :: secs.map DiffSection.key).Nodup →
        split_diff_go ((secs.map sectionLines).flatten) m cf cl =
          (m ++ [(cf, cl)]) ++
            secs.map (fun s => (s.key, sectionLines s)) := by
  intro secs
  induction secs with
  | nil =>
    intro _ m cf cl hcf hfresh _
    simp [split_diff_go, hcf,
      insertKey_of_lookup_none (hfresh cf (by simp)) cl]
  | cons s t ih =>
    intro hwf m cf cl hcf hfresh hnd
    obtain ⟨hh, htok, hkey, hkne, hbody⟩ := hwf s (by simp)
    have h1 : (List.map sectionLines (s :: t)).flatten
        = s.hdr :: (s.body ++ (List.map sectionLines t).flatten) := by
      simp [sectionLines]
    have hcfmem : cf ∉ s.key :: List.map DiffSection.key t :=
      (List.nodup_cons.mp hnd).1
    have hm' : insertKey m cf cl = m ++ [(cf, cl)] :=
      insertKey_of_lookup_none (hfresh cf (by simp)) cl
    rw [h1, split_diff_go_header s.hdr _ m cf cl s.tok hh htok hcf,
      split_diff_go_body s.body hbody _ _ _ _, hkey]
    rw [ih (fun x hx => hwf x (List.mem_cons_of_mem _ hx))
        (insertKey m cf cl) s.key ([s.hdr] ++ s.body) hkne
        ?fresh ?nodup]
    · rw [hm']
      simp [sectionLines]
    case fresh =>
      intro k hk
      rw [hm', lookupKey_append]
      have hknecf : ¬(cf = k) := by
        intro he
        subst he
        exact hcfmem hk
      have hmk : lookupKey m k = none :=
        hfresh k (List.mem_cons_of_mem _ hk)
      rw [hmk]
      simp [lookupKey, hknecf]
    case nodup =>
      exact (List.nodup_cons.mp hnd).2

/-- `next` preserves the input mode and the zoom level. -/
theorem next_pres {a a' : App} (h : next a = some a') :
    a'.input_mode = a.input_mode ∧ a'.zoom_level = a.zoom_level := by
  unfold next at h
  dsimp only at h
  split at h
  · split at h
    · exact ⟨(load_diff_pres h).2.2.2.2.2.1, (load_diff_pres h).1⟩
    · injection h with h2
      subst h2
      exact ⟨rfl, rfl⟩
  · injection h with h2
    subst h2
    exact ⟨rfl, rfl⟩

/-- `previous` preserves the input mode and the zoom level. -/
theorem previous_pres {a a' : App} (h : previous a = some a') :
    a'.input_mode = a.input_mode ∧ a'.zoom_level = a.zoom_level := by
  unfold previous at h
  dsimp only at h
  split at h
  · split at h
    · exact ⟨(load_diff_pres h).2.2.2.2.2.1, (load_diff_pres h).1⟩
    · injection h with h2
      subst h2
      exact ⟨rfl, rfl⟩
  · injection h with h2
    subst h2
    exact ⟨rfl, rfl⟩

/-- `zoom_in` preserves the input mode. -/
theorem zoom_in_pres {a a' : App} (h : zoom_in a = some a') :
    a'.input_mode = a.input_mode := by
  unfold zoom_in at h
  split at h
  · exact (load_diff_pres h).2.2.2.2.2.1
  · split at h <;> (injection h with h2; subst h2; rfl)
  · injection h with h2
    subst h2
    rfl

/-- `zoom_out` preserves the input mode. -/
theorem zoom_out_pres (a : App) :
    (zoom_out a).input_mode = a.input_mode := by
  unfold zoom_out
  split <;> rfl

/-- `toggle_stage` preserves the input mode and the zoom level. -/
theorem toggle_stage_pres {a a' : App} (h : toggle_stage a = some a') :
    a'.input_mode = a.input_mode ∧ a'.zoom_level = a.zoom_level := by
  unfold toggle_stage at h
  repeat' split at h
  all_goals
    first
      | exact Option.noConfusion h
      | (injection h with h2; subst h2; exact ⟨rfl, rfl⟩)
      | (unfold stageRebuild at h; dsimp only at h;
         exact ⟨(update_search_fields h).2.2.2.2.2.2.1,
           (update_search_fields h).2.2.1⟩)

/-- `increase_context` preserves the input mode and the zoom level. -/
theorem increase_context_pres {a a' : App} (h : increase_context a = some a') :
    a'.input_mode = a.input_mode ∧ a'.zoom_level = a.zoom_level := by
  unfold increase_context at h
  split at h
  · exact ⟨(load_diff_pres h).2.2.2.2.2.1, (load_diff_pres h).1⟩
  · injection h with h2
    subst h2
    exact ⟨rfl, rfl⟩

/-- `decrease_context` preserves the input mode and the zoom level. -/
theorem decrease_context_pres {a a' : App} (h : decrease_context a = some a') :
    a'.input_mode = a.input_mode ∧ a'.zoom_level = a.zoom_level := by
  unfold decrease_context at h
  split at h
  · exact ⟨(load_diff_pres h).2.2.2.2.2.1, (load_diff_pres h).1⟩
  · injection h with h2
    subst h2
    exact ⟨rfl, rfl⟩

/-- `next` preserves the Structure-level selection invariant. -/
theorem next_selInv {a a' : App} (hInv : selInv a) (h : next a = some a') :
    selInv a' := by
  intro hz
  unfold next at h
  dsimp only at h
  split at h <;> rename_i hcond
  · split at h <;> rename_i hzs
    · refine load_diff_structSelOk h ?_
      rw [hzs] at hcond
      dsimp only at hcond
      refine Or.inl ?_
      dsimp only
      omega
    · injection h with h2
      subst h2
      exact absurd hz hzs
  · injection h with h2
    subst h2
    exact hInv hz

/-- `previous` preserves the Structure-level selection invariant. -/
theorem previous_selInv {a a' : App} (hInv : selInv a)
    (h : previous a = some a') : selInv a' := by
  intro hz
  unfold previous at h
  dsimp only at h
  split at h <;> rename_i hcond
  · split at h <;> rename_i hzs
    · refine load_diff_structSelOk h ?_
      rcases hInv hzs with hlt | ⟨hnil, hz0⟩
      · refine Or.inl ?_
        dsimp only
        omega
      · omega
    · injection h with h2
      subst h2
      exact absurd hz hzs
  · injection h with h2
    subst h2
    exact hInv hz

/-- `zoom_in` preserves the Structure-level selection invariant. -/
theorem zoom_in_selInv {a a' : App} (hInv : selInv a)
    (h : zoom_in a = some a') : selInv a' := by
  intro hz
  unfold zoom_in at h
  split at h
  · exact load_diff_structSelOk h (structSelOk_of_zero rfl)
  · split at h <;> (injection h with h2; subst h2)
    · exact hInv hz
    · exact ZoomLevel.noConfusion hz
  · injection h with h2
    subst h2
    exact hInv hz

/-- `zoom_out` preserves the Structure-level selection invariant. -/
theorem zoom_out_selInv {a : App} (_hInv : selInv a) : selInv (zoom_out a) := by
  cases hc : a.zoom_level with
  | Galaxy =>
    intro hz
    simp only [zoom_out, hc] at hz
    exact ZoomLevel.noConfusion hz
  | Structure =>
    intro hz
    simp only [zoom_out, hc] at hz
    exact ZoomLevel.noConfusion hz
  | Logic =>
    intro hz
    simp only [zoom_out, hc]
    exact structSelOk_of_zero rfl

/-- `toggle_stage` preserves the Structure-level selection invariant. -/
theorem toggle_stage_selInv {a a' : App} (hInv : selInv a)
    (h : toggle_stage a = some a') : selInv a' := by
  unfold toggle_stage at h
  repeat' split at h
  all_goals
    first
      | exact Option.noConfusion h
      | (injection h with h2; subst h2; exact hInv)
      | (intro hz
         unfold stageRebuild at h
         dsimp only at h
         exact (update_search_structSelOk h).1)

/-- `increase_context` preserves the Structure-level selection invariant. -/
theorem increase_context_selInv {a a' : App} (hInv : selInv a)
    (h : increase_context a = some a') : selInv a' := by
  unfold increase_context at h
  split at h <;> rename_i hc
  · intro hz
    have hzz := (load_diff_pres h).1
    exact ZoomLevel.noConfusion (hc.1.symm.trans (hzz.symm.trans hz))
  · injection h with h2
    subst h2
    exact hInv

/-- `decrease_context` preserves the Structure-level selection invariant. -/
theorem decrease_context_selInv {a a' : App} (hInv : selInv a)
    (h : decrease_context a = some a') : selInv a' := by
  unfold decrease_context at h
  split at h <;> rename_i hc
  · intro hz
    have hzz := (load_diff_pres h).1
    exact ZoomLevel.noConfusion (hc.1.symm.trans (hzz.symm.trans hz))
  · injection h with h2
    subst h2
    exact hInv

/-- `exit_search` preserves the Structure-level selection invariant. -/
theorem exit_search_selInv {a : App} (hInv : selInv a) :
    selInv (exit_search a) := by
  intro hz
  exact hInv hz

/-- One key event preserves the Structure-level selection invariant. -/
theorem handle_event_selInv {a a' : App} {k : Key} (hInv : selInv a)
    (h : (handle_event a k).2 = some a') : selInv a' := by
  unfold handle_event at h
  split at h
  · cases k <;> dsimp only at h
    case enter =>
      injection h with h2
      subst h2
      exact exit_search_selInv hInv
    case esc =>
      unfold cancel_search at h
      exact fun _ => (update_search_structSelOk h).1
    case backspace =>
      exact fun _ => (update_search_structSelOk h).1
    case char c =>
      exact fun _ => (update_search_structSelOk h).1
    all_goals (injection h with h2; subst h2; exact hInv)
  · cases k <;> dsimp only at h
    case esc =>
      injection h with h2
      subst h2
      exact hInv
    case down => exact next_selInv hInv h
    case up => exact previous_selInv hInv h
    case enter => exact zoom_in_selInv hInv h
    case backspace =>
      injection h with h2
      subst h2
      exact zoom_out_selInv hInv
    case left =>
      injection h with h2
      subst h2
      exact zoom_out_selInv hInv
    case other =>
      injection h with h2
      subst h2
      exact hInv
    case char c =>
      repeat' first
        | split at h
        | dsimp only at h
      all_goals
        first
          | (injection h with h2; subst h2; exact hInv)
          | exact next_selInv hInv h
          | exact previous_selInv hInv h
          | exact toggle_stage_selInv hInv h
          | exact increase_context_selInv hInv h
          | exact decrease_context_selInv hInv h
          | (unfold enter_search at h
             exact fun _ => (update_search_structSelOk h).1)

/-- Every run of key events preserves the Structure-level selection
invariant. -/
theorem run_selInv :
    ∀ (ks : List Key) (a a' : App), selInv a → run a ks = some a' →
      selInv a' := by
  intro ks
  induction ks with
  | nil =>
    intro a a' hInv h
    injection h with h2
    subst h2
    exact hInv
  | cons k t ih =>
    intro a a' hInv h
    unfold run at h
    split at h
    · exact Option.noConfusion h
    · rename_i a1 heq
      exact ih a1 a' (handle_event_selInv hInv heq) h

/-! ## Claim theorems -/

/-- Claim C1: for every entry list and query, `update_search` sets
`filtered_structure_indices` to the identity sequence when the query is
empty, and otherwise to exactly the indices (in original order) whose
entry's display text contains the query case-insensitively; the result is
always a subsequence of the empty-query result, whose length is the
number of entries. -/
theorem C1_update_search_filter (a a' : App) (h : update_search a = some a') :
    (a.search_query = "" →
      a'.filtered_structure_indices = List.range a.structures.length) ∧
    (∀ i, i ∈ a'.filtered_structure_indices ↔
      ∃ item, a.structures[i]? = some item ∧
        strContains (strLower item.text) (strLower a.search_query) = true) ∧
    List.Sublist a'.filtered_structure_indices
      (computeFiltered a.structures "") ∧
    (computeFiltered a.structures "").length = a.structures.length := by
  obtain ⟨hfi, -⟩ := update_search_fields h
  refine ⟨?_, ?_, ?_, ?_⟩
  · intro hq
    rw [hfi, hq, computeFiltered_empty]
  · intro i
    rw [hfi]
    exact computeFiltered_mem a.structures a.search_query i
  · rw [hfi, computeFiltered_empty]
    exact computeFiltered_sublist _ _
  · rw [computeFiltered_empty]
    exact List.length_range _

/-- Witness for C1 on the concrete `searchApp` fixture. -/
theorem C1_update_search_filter_witness :
    List.Sublist searchAppRes.filtered_structure_indices
      (computeFiltered searchApp.structures "") :=
  (C1_update_search_filter searchApp searchAppRes (by rfl)).2.2.1

/-- Claim C2: after every search recomputation, the selection is reset to
exactly 0 when the filtered list is empty or the old selection is out of
its bounds, and is left unchanged otherwise. -/
theorem C2_selection_reset (a a' : App) (h : update_search a = some a') :
    a'.selected_index =
      if a'.filtered_structure_indices = [] ∨
         a'.filtered_structure_indices.length ≤ a.selected_index
      then 0 else a.selected_index := by
  obtain ⟨hfi, hsel, -⟩ := update_search_fields h
  rw [hfi]
  exact hsel

/-- Witness for C2 on the concrete `searchApp` fixture: the selection
1 is out of bounds of the one-element filtered list, so it resets to 0. -/
theorem C2_selection_reset_witness :
    searchAppRes.selected_index =
      if searchAppRes.filtered_structure_indices = [] ∨
         searchAppRes.filtered_structure_indices.length ≤
           searchApp.selected_index
      then 0 else searchApp.selected_index :=
  C2_selection_reset searchApp searchAppRes (by rfl)

/-- Claim C6: at Line level against a Local source one increase step adds
exactly 3 to `context_lines` (saturating at the integer maximum) and one
decrease step subtracts 3 floored at 1, each re-triggering diff
resolution; under any other zoom level or source both operations change
nothing. -/
theorem C6_context_adjustment (a : App) :
    ((a.zoom_level = ZoomLevel.Logic ∧ sourceIsLocal a.source = true) →
      increase_context a =
        load_diff { a with context_lines := min (a.context_lines + 3) u32Max } ∧
      decrease_context a =
        load_diff { a with context_lines := max (a.context_lines - 3) 1 } ∧
      (∀ a', increase_context a = some a' →
        a'.context_lines = min (a.context_lines + 3) u32Max) ∧
      (∀ a', decrease_context a = some a' →
        a'.context_lines = max (a.context_lines - 3) 1)) ∧
    (¬(a.zoom_level = ZoomLevel.Logic ∧ sourceIsLocal a.source = true) →
      increase_context a = some a ∧ decrease_context a = some a) := by
  constructor
  · intro hc
    have hinc : increase_context a =
        load_diff { a with context_lines := min (a.context_lines + 3) u32Max } := by
      unfold increase_context
      split
      · rfl
      · rename_i hn
        exact absurd hc hn
    have hdec : decrease_context a =
        load_diff { a with context_lines := max (a.context_lines - 3) 1 } := by
      unfold decrease_context
      split
      · rfl
      · rename_i hn
        exact absurd hc hn
    refine ⟨hinc, hdec, ?_, ?_⟩
    · intro a' h'
      rw [hinc] at h'
      exact (load_diff_pres h').2.2.2.2.2.2.2.1
    · intro a' h'
      rw [hdec] at h'
      exact (load_diff_pres h').2.2.2.2.2.2.2.1
  · intro hc
    constructor
    · unfold increase_context
      split
      · rename_i hy
        exact absurd hy hc
      · rfl
    · unfold decrease_context
      split
      · rename_i hy
        exact absurd hy hc
      · rfl

/-- Witness for C6: increasing from 3 yields 6; decreasing from 1 stays
at the floor 1. -/
theorem C6_context_adjustment_witness :
    increase_context ctxApp = some { ctxApp with context_lines := 6 } ∧
    decrease_context ctxApp1 = some { ctxApp1 with context_lines := 1 } := by
  have h := ((C6_context_adjustment ctxApp).1 ⟨rfl, rfl⟩).1
  have h1 := ((C6_context_adjustment ctxApp1).1 ⟨rfl, rfl⟩).2.1
  constructor
  · rw [h]
    rfl
  · rw [h1]
    rfl

/-- Claim C7: zoom-in at Structure moves to Line with selection 0 exactly
when the filtered list is non-empty (otherwise nothing changes); zoom-in
at Overview always moves to Structure with selection 0 and triggers diff
resolution; zoom-in at Line changes nothing; zoom-out maps Line to
Structure and Structure to Overview, resetting the selection to 0. -/
theorem C7_zoom_transitions (a : App) :
    (a.zoom_level = ZoomLevel.Structure → a.filtered_structure_indices ≠ [] →
      zoom_in a =
        some { a with zoom_level := ZoomLevel.Logic, selected_index := 0 }) ∧
    (a.zoom_level = ZoomLevel.Structure → a.filtered_structure_indices = [] →
      zoom_in a = some a) ∧
    (a.zoom_level = ZoomLevel.Galaxy →
      zoom_in a =
        load_diff { a with zoom_level := ZoomLevel.Structure,
                           selected_index := 0 }) ∧
    (a.zoom_level = ZoomLevel.Logic → zoom_in a = some a) ∧
    (a.zoom_level = ZoomLevel.Logic →
      zoom_out a =
        { a with zoom_level := ZoomLevel.Structure, selected_index := 0 }) ∧
    (a.zoom_level = ZoomLevel.Structure →
      zoom_out a =
        { a with zoom_level := ZoomLevel.Galaxy, selected_index := 0 }) := by
  refine ⟨?_, ?_, ?_, ?_, ?_, ?_⟩
  · intro hz hne
    simp only [zoom_in, hz]
    rw [if_neg hne]
  · intro hz he
    simp only [zoom_in, hz]
    rw [if_pos he]
  · intro hz
    simp only [zoom_in, hz]
  · intro hz
    simp only [zoom_in, hz]
  · intro hz
    simp only [zoom_out, hz]
  · intro hz
    simp only [zoom_out, hz]

/-- Witness for C7: zooming in from the Structure-level fixture with the
non-empty filtered list `[1]` reaches Line level with selection 0. -/
theorem C7_zoom_transitions_witness :
    zoom_in searchAppRes =
      some { searchAppRes with
             zoom_level := ZoomLevel.Logic
             selected_index := 0 } :=
  (C7_zoom_transitions searchAppRes).1 rfl (by decide)

/-- Claim C8: over a Remote source, resolving the diff for a selected
file row yields the path's pre-split lines unchanged when the path is in
the mapping and exactly the single placeholder line otherwise (not an
error); the `context_lines` value has no effect on the result. -/
theorem C8_remote_diff (a : App) (fd : List (String × List String))
    (a' : App) (ri : Nat) (item : StructureItem)
    (hs : a.source = some (DataSource.GitHub fd))
    (hsel : a.selected_index < a.filtered_structure_indices.length)
    (hri : a.filtered_structure_indices[a.selected_index]? = some ri)
    (hitem : a.structures[ri]? = some item)
    (hfile : item.is_file = true)
    (hpath : item.path ≠ "")
    (h : load_diff a = some a') :
    (a'.logic_view_content =
      match lookupKey fd item.path with
      | some lines => lines
      | none => ["No diff available for this file."]) ∧
    (∀ c a'', load_diff { a with context_lines := c } = some a'' →
      a''.logic_view_content = a'.logic_view_content) := by
  rw [load_diff_github hs hsel hri hitem hfile hpath] at h
  injection h with h2
  subst h2
  constructor
  · rfl
  · intro c a'' h''
    rw [load_diff_github (a := { a with context_lines := c }) hs hsel hri
      hitem hfile hpath] at h''
    injection h'' with h3
    subst h3
    rfl

/-- Witness for C8: the fixture's selected path `g` is absent from the
pre-split mapping, so the buffer is exactly the placeholder line. -/
theorem C8_remote_diff_witness :
    ghAppRes.logic_view_content = ["No diff available for this file."] :=
  (C8_remote_diff ghApp [("f", ["+x"])] ghAppRes 0 ghItem rfl (by decide)
    rfl rfl rfl (by decide) (by rfl)).1

/-- Claim C9: with its preconditions satisfied, `toggle_stage` on a
staged file removes the path from the index when no commit exists and
resets it to the committed state when one does, and on an unstaged file
adds the path; in every successful case the lists are rebuilt from a
fresh scan and the filter is recomputed over the rebuilt list with the
unchanged current query (`stageRebuild`), which re-normalizes the
selection. -/
theorem C9_toggle_stage_effect (a : App) (r : GitRepo) (ri : Nat)
    (item : StructureItem)
    (hs : a.source = some (DataSource.Local r))
    (hri : a.filtered_structure_indices[a.selected_index]? = some ri)
    (hitem : a.structures[ri]? = some item)
    (hfile : item.is_file = true) :
    (item.is_staged = true → r.head = none →
      toggle_stage a =
        stageRebuild a { r with index := removeKey r.index item.path }) ∧
    (∀ t, item.is_staged = true → r.head = some t →
      toggle_stage a =
        stageRebuild a
          { r with index :=
              match lookupKey t item.path with
              | some v => insertKey r.index item.path v
              | none => removeKey r.index item.path }) ∧
    (∀ v, item.is_staged = false → lookupKey r.workdir item.path = some v →
      toggle_stage a =
        stageRebuild a { r with index := insertKey r.index item.path v }) := by
  have hfine : a.filtered_structure_indices ≠ [] := by
    have h1 := (List.getElem?_eq_some.mp hri).1
    exact List.ne_nil_of_length_pos (Nat.lt_of_le_of_lt (Nat.zero_le _) h1)
  have hnotfalse : ¬(item.is_file = false) := by
    rw [hfile]
    decide
  refine ⟨?_, ?_, ?_⟩
  · intro hstaged hh
    unfold toggle_stage
    rw [hs]
    dsimp only
    rw [if_neg hfine, hri]
    dsimp only
    rw [hitem]
    dsimp only
    rw [if_neg hnotfalse, if_pos hstaged, hh]
  · intro t hstaged hh
    unfold toggle_stage
    rw [hs]
    dsimp only
    rw [if_neg hfine, hri]
    dsimp only
    rw [hitem]
    dsimp only
    rw [if_neg hnotfalse, if_pos hstaged, hh]
  · intro v hstaged hwd
    have hnot : ¬(item.is_staged = true) := by
      rw [hstaged]
      decide
    unfold toggle_stage
    rw [hs]
    dsimp only
    rw [if_neg hfine, hri]
    dsimp only
    rw [hitem]
    dsimp only
    rw [if_neg hnotfalse, if_neg hnot, hwd]

/-- Witness for C9: toggling the staged file of the commit-less fixture
repository removes it from the index (no reset-to-HEAD path). -/
theorem C9_toggle_stage_effect_witness :
    toggle_stage c9App =
      stageRebuild c9App { c9Repo with index := removeKey c9Repo.index "f" } :=
  (C9_toggle_stage_effect c9App c9Repo 0 c9Item rfl rfl rfl rfl).1 rfl rfl

/-- Claim C3: `split_diff` partitions a raw diff at lines beginning with
`diff --git`: each section's key is the header's last whitespace token
with the leading `b/` stripped, each section's value is the header line
plus all following lines up to the next header, verbatim and in order,
the final section is flushed after the scan, and nothing else is in the
mapping. -/
theorem C3_split_diff (raw : String) (first : DiffSection)
    (t : List DiffSection)
    (hlines : rustLines raw = (List.map sectionLines (first :: t)).flatten)
    (hwf : ∀ s ∈ first :: t, sectionWF s)
    (hnd : (List.map DiffSection.key (first :: t)).Nodup) :
    split_diff raw =
      List.map (fun s => (s.key, sectionLines s)) (first :: t) := by
  obtain ⟨hh, htok, hkey, hkne, hbody⟩ := hwf first (by simp)
  unfold split_diff
  rw [hlines]
  have h1 : (List.map sectionLines (first :: t)).flatten
      = first.hdr :: (first.body ++ (List.map sectionLines t).flatten) := by
    simp [sectionLines]
  rw [h1, split_diff_go_header_first first.hdr _ [] [] first.tok hh htok,
    split_diff_go_body first.body hbody _ _ _ _, hkey]
  rw [split_diff_go_sections t (fun x hx => hwf x (List.mem_cons_of_mem _ hx))
      [] first.key (([] : List String) ++ [first.hdr] ++ first.body) hkne
      (fun k _ => rfl) hnd]
  simp [sectionLines]

/-- Witness for C3: the spec's concrete two-section scenario. -/
theorem C3_split_diff_witness :
    split_diff c3Raw =
      [("x", ["diff --git a/x b/x", "+hi"]),
       ("y", ["diff --git a/y b/y", "-bye"])] := by
  have h := C3_split_diff c3Raw c3SecX [c3SecY] (by decide) (by decide)
    (by decide)
  simpa [c3SecX, c3SecY, sectionLines] using h

/-- Claim C10: in Normal input mode the search-trigger key invokes
`enter_search` exactly when the zoom level is Structure and is ignored
otherwise; consequently `input_mode` can become Editing only from the
Structure level. -/
theorem C10_search_entry_gate (a : App) :
    (a.input_mode = InputMode.Normal →
      handle_event a (Key.char '/') =
        (true, if a.zoom_level = ZoomLevel.Structure then enter_search a
               else some a)) ∧
    (∀ k b a', a.input_mode = InputMode.Normal →
      handle_event a k = (b, some a') →
      a'.input_mode = InputMode.Editing →
      a.zoom_level = ZoomLevel.Structure ∧ k = Key.char '/') := by
  constructor
  · intro hn
    have hne : ¬(a.input_mode = InputMode.Editing) := by
      rw [hn]
      decide
    unfold handle_event
    rw [if_neg hne]
    rfl
  · intro k b a' hn h hed
    have hne : ¬(a.input_mode = InputMode.Editing) := by
      rw [hn]
      decide
    have noEd : ∀ {x : App}, x.input_mode = a.input_mode →
        x.input_mode = InputMode.Editing → False := by
      intro x hp he
      rw [he, hn] at hp
      exact InputMode.noConfusion hp
    unfold handle_event at h
    rw [if_neg hne] at h
    cases k with
    | enter =>
      dsimp only at h
      simp only [Prod.mk.injEq] at h
      obtain ⟨-, ho⟩ := h
      exact absurd hed (noEd (zoom_in_pres ho))
    | esc =>
      dsimp only at h
      simp only [Prod.mk.injEq] at h
      obtain ⟨-, ho⟩ := h
      injection ho with ho2
      exact absurd hed (noEd (congrArg App.input_mode ho2).symm)
    | backspace =>
      dsimp only at h
      simp only [Prod.mk.injEq] at h
      obtain ⟨-, ho⟩ := h
      injection ho with ho2
      exact absurd hed
        (noEd ((congrArg App.input_mode ho2).symm.trans (zoom_out_pres a)))
    | left =>
      dsimp only at h
      simp only [Prod.mk.injEq] at h
      obtain ⟨-, ho⟩ := h
      injection ho with ho2
      exact absurd hed
        (noEd ((congrArg App.input_mode ho2).symm.trans (zoom_out_pres a)))
    | down =>
      dsimp only at h
      simp only [Prod.mk.injEq] at h
      obtain ⟨-, ho⟩ := h
      exact absurd hed (noEd (next_pres ho).1)
    | up =>
      dsimp only at h
      simp only [Prod.mk.injEq] at h
      obtain ⟨-, ho⟩ := h
      exact absurd hed (noEd (previous_pres ho).1)
    | other =>
      dsimp only at h
      simp only [Prod.mk.injEq] at h
      obtain ⟨-, ho⟩ := h
      injection ho with ho2
      exact absurd hed (noEd (congrArg App.input_mode ho2).symm)
    | char c =>
      dsimp only at h
      by_cases h1 : c = 'q'
      · rw [if_pos h1] at h
        simp only [Prod.mk.injEq] at h
        obtain ⟨-, ho⟩ := h
        injection ho with ho2
        exact absurd hed (noEd (congrArg App.input_mode ho2).symm)
      rw [if_neg h1] at h
      by_cases h2 : c = 'j'
      · rw [if_pos h2] at h
        simp only [Prod.mk.injEq] at h
        obtain ⟨-, ho⟩ := h
        exact absurd hed (noEd (next_pres ho).1)
      rw [if_neg h2] at h
      by_cases h3 : c = 'k'
      · rw [if_pos h3] at h
        simp only [Prod.mk.injEq] at h
        obtain ⟨-, ho⟩ := h
        exact absurd hed (noEd (previous_pres ho).1)
      rw [if_neg h3] at h
      by_cases h4 : c = ' '
      · rw [if_pos h4] at h
        simp only [Prod.mk.injEq] at h
        obtain ⟨-, ho⟩ := h
        exact absurd hed (noEd (toggle_stage_pres ho).1)
      rw [if_neg h4] at h
      by_cases h5 : c = '+' ∨ c = '='
      · rw [if_pos h5] at h
        simp only [Prod.mk.injEq] at h
        obtain ⟨-, ho⟩ := h
        exact absurd hed (noEd (increase_context_pres ho).1)
      rw [if_neg h5] at h
      by_cases h6 : c = '-' ∨ c = '_'
      · rw [if_pos h6] at h
        simp only [Prod.mk.injEq] at h
        obtain ⟨-, ho⟩ := h
        exact absurd hed (noEd (decrease_context_pres ho).1)
      rw [if_neg h6] at h
      by_cases h7 : c = '/'
      · rw [if_pos h7] at h
        simp only [Prod.mk.injEq] at h
        obtain ⟨-, ho⟩ := h
        split at ho
        · rename_i hz
          exact ⟨hz, by rw [h7]⟩
        · injection ho with ho2
          exact absurd hed (noEd (congrArg App.input_mode ho2).symm)
      rw [if_neg h7] at h
      simp only [Prod.mk.injEq] at h
      obtain ⟨-, ho⟩ := h
      injection ho with ho2
      exact absurd hed (noEd (congrArg App.input_mode ho2).symm)

/-- Witness for C10: at the Structure-level fixture the search key enters
search mode. -/
theorem C10_search_entry_gate_witness :
    handle_event c9App (Key.char '/') = (true, enter_search c9App) := by
  have h := (C10_search_entry_gate c9App).1 rfl
  simpa using h

/-- Claim C4 is refuted by the code: `toggle_stage` indexes
`filtered_structure_indices[selected_index]` guarded only by the list
being non-empty, so with a Local source, a non-empty filtered list and
`selected_index` out of its bounds it panics (modelled as `none`) instead
of silently doing nothing; the second conjunct shows the panic state is
reachable through the key handler (navigating at Overview level with a
committed filter active, exactly the claim's parenthetical scenario). -/
theorem C4_toggle_stage_out_of_bounds :
    toggle_stage c4App = none ∧ c4Run = none := ⟨rfl, rfl⟩

/-- Claim C5 is refuted by the code: from the freshly loaded `c5Repo`
session, pressing down at Overview level and then unstaging the selected
file shrinks the module list from two entries to one while the selection
stays 1, so the reached state has an Overview selection that is neither a
valid index into the module list nor 0 — the spec's cross-level selection
invariant (`specSelectionInvariant`) is violated in a reachable state. -/
theorem C5_counterexample :
    Option.map specSelectionInvariant c5Final = some false := rfl

/-- Claim C5, amended: in every state reachable by key events from an
initial (Overview-level) state, whenever the zoom level is Structure the
selection is a valid index into `filtered_structure_indices`, or 0 when
that list is empty.  (At Overview and Line levels the invariant can be
violated, as `C5_counterexample` shows.) -/
theorem C5_structure_selection_invariant (a0 : App) (ks : List Key)
    (a : App) (h0 : a0.zoom_level = ZoomLevel.Galaxy)
    (h : run a0 ks = some a)
    (hz : a.zoom_level = ZoomLevel.Structure) :
    a.selected_index < a.filtered_structure_indices.length ∨
      (a.filtered_structure_indices = [] ∧ a.selected_index = 0) := by
  have hInv0 : selInv a0 := by
    intro hzz
    rw [h0] at hzz
    exact ZoomLevel.noConfusion hzz
  exact run_selInv ks a0 a hInv0 h hz

/-- Witness for the amended C5: one zoom-in key from the Overview-level
fixture reaches a Structure-level state whose selection 0 is valid for
its one-element filtered list. -/
theorem C5_structure_selection_invariant_witness :
    c5W.selected_index < c5W.filtered_structure_indices.length ∨
      (c5W.filtered_structure_indices = [] ∧ c5W.selected_index = 0) :=
  C5_structure_selection_invariant c4App [Key.enter] c5W rfl (by rfl) rfl

end Glimpse
